import Mathlib

/-!
Verification of the pseudo-Riemannian submanifold core
(`sage/manifolds/differentiable/pseudo_riemannian_submanifold.py`) and the
filtered-module companion logic
(`sage/categories/filtered_modules_with_basis.py`,
`sage/categories/filtered_algebras_with_basis.py`).

Each namespace below is a shallow embedding of one slice of the source:
the symbolic tensor algebra (an external collaborator of the source) is
represented either by abstract value types, by rational scalars, or by
matrices of rationals over a finite index set, while the control flow,
cache handling, index bookkeeping and error handling of the source are
transcribed line by line.
-/

/-! ## Foliation preconditions (`difft`, `gradt`, `lapse`, `shift`)

The four foliation-dependent accessors each begin with the guard
`if self._dim_foliation == 0: raise ValueError(...)` and otherwise build
their value from the symbolic layer.  `V` stands for the values produced
by the symbolic tensor-field library; the fields of `FoliationCtx` are the
collaborator calls made by the source, and the `Except`-valued functions
transcribe the guard-then-compute control flow together with the call
graph (`gradt` calls `difft`, `lapse` calls `gradt`, `shift` calls `lapse`
and `normal`).
-/

namespace FoliationOps

/-- Message of the `ValueError` raised by `difft`, `gradt`, `lapse` and
`shift` when `self._dim_foliation == 0` (the string is identical in all
four methods of the source). -/
def foliationMsg : String := "A foliation is needed to perform this calculation"

/-- Context of a submanifold: the declared foliation dimension and the
symbolic-collaborator calls used by the foliation-dependent accessors. -/
structure FoliationCtx (V : Type) where
  /-- `self._dim_foliation` -/
  dimFoliation : ℕ
  /-- `self._t_inverse[self._var[0]].differential()` -/
  tInvDiffVal : V
  /-- contraction of `self.ambient_metric().inverse()` with a 1-form -/
  metricInvContract : V → V
  /-- the symbolic `1/sqrt(sgn * g(gradt, gradt))` computation of `lapse` -/
  reciprocalNorm : V → V
  /-- `self._adapted_charts[0].frame()[self._dim]` -/
  adaptedFrameVec : V
  /-- `sgn * lapse * gradt`, the foliated-branch normal -/
  scaleNormal : V → V → V
  /-- `frame_vector - lapse * normal`, the shift combination -/
  shiftCombine : V → V → V → V

/-- Transcription of `difft()`: guard on `dim_foliation`, then the
differential of the inverse foliation scalar field. -/
def difft {V : Type} (ctx : FoliationCtx V) : Except String V :=
  if ctx.dimFoliation = 0 then .error foliationMsg
  else .ok ctx.tInvDiffVal

/-- Transcription of `gradt()`: guard, then `ambient_metric().inverse()`
contracted with `difft()`. -/
def gradt {V : Type} (ctx : FoliationCtx V) : Except String V :=
  if ctx.dimFoliation = 0 then .error foliationMsg
  else
    match difft ctx with
    | .error e => .error e
    | .ok d => .ok (ctx.metricInvContract d)

/-- Transcription of `lapse()`: guard, then the reciprocal norm of
`gradt()`. -/
def lapse {V : Type} (ctx : FoliationCtx V) : Except String V :=
  if ctx.dimFoliation = 0 then .error foliationMsg
  else
    match gradt ctx with
    | .error e => .error e
    | .ok g => .ok (ctx.reciprocalNorm g)

/-- The foliated branch of `normal()` (`self._dim_foliation != 0`):
`sgn * lapse() * gradt()`.  `shift` only reaches it with a foliation
declared; the unfoliated branch performs the chart-graph traversal and
raises no foliation error. -/
def normal {V : Type} (ctx : FoliationCtx V) : Except String V :=
  match lapse ctx with
  | .error e => .error e
  | .ok l =>
    match gradt ctx with
    | .error e => .error e
    | .ok g => .ok (ctx.scaleNormal l g)

/-- Transcription of `shift()`: guard, then
`adapted_charts[0].frame()[dim] - lapse() * normal()`. -/
def shift {V : Type} (ctx : FoliationCtx V) : Except String V :=
  if ctx.dimFoliation = 0 then .error foliationMsg
  else
    match lapse ctx with
    | .error e => .error e
    | .ok l =>
      match normal ctx with
      | .error e => .error e
      | .ok n => .ok (ctx.shiftCombine ctx.adaptedFrameVec l n)

end FoliationOps

/-! ## `mixed_projection`: index interpretation and the contraction-count
guard

`mixed_projection(tensor, indices)` first turns an integer argument into
`range(indices)`, then raises `ValueError("Too much contractions")` when
the index list is longer than the tensor rank, and otherwise assembles the
multiprojector: one factor per covariant index (`normal()` if the position
is listed, else `projector()`), then one factor per contravariant index
(`normal().contract(g)` if listed, else `projector()`), finally contracted
against the tensor at the positions the source computes from
`kp = 2*k - len(indices)`.  The embedding records that assembly
syntactically: the factor list and the two position lists are exactly the
data the source passes to the symbolic layer, so two calls producing the
same `MPPlan` make the very same collaborator calls. -/

namespace MixedProjection

/-- Message of the `ValueError` raised when `len(indices)` exceeds the
tensor rank (source: `raise ValueError("Too much contractions")`). -/
def tooMuchMsg : String := "Too much contractions"

/-- The message the specification ascribes to the same error. -/
def tooManyMsg : String := "too many contractions"

/-- Tensor valence: `tensor.tensor_type() == (con, cov)`. -/
structure TensorSig where
  con : ℕ
  cov : ℕ
deriving DecidableEq

/-- `tensor.tensor_rank()`: the total number of indices. -/
def TensorSig.rank (t : TensorSig) : ℕ := t.con + t.cov

/-- The `indices` argument: either a plain integer count or an explicit
list of index positions. -/
inductive MPIndices where
  | count (k : ℕ)
  | explicitList (l : List ℕ)
deriving DecidableEq

/-- The source's first step: `if isinstance(indices, (Integer, int)):
indices = range(indices)`; afterwards only `len(indices)` and membership
`i in indices` are used. -/
def mpIndicesList : MPIndices → List ℕ
  | .count k => List.range k
  | .explicitList l => l

/-- One factor of the multiprojector. -/
inductive MPFactor where
  /-- `self.projector()`, a (1,1) tensor -/
  | projectorFac
  /-- `self.normal()`, a vector -/
  | normalVec
  /-- `self.normal().contract(g)`, a 1-form -/
  | normalForm
deriving DecidableEq

/-- Tensor order contributed by a factor. -/
def MPFactor.order : MPFactor → ℕ
  | .projectorFac => 2
  | .normalVec => 1
  | .normalForm => 1

/-- The contraction job `mixed_projection` hands to the symbolic layer:
the multiprojector factors in multiplication order and the two position
lists of the final `contract(*args)` call. -/
structure MPPlan where
  factors : List MPFactor
  argsProj : List ℕ
  argsTensor : List ℕ
deriving DecidableEq

/-- Transcription of `mixed_projection(tensor, indices)` down to the
symbolic contraction call. -/
def mixed_projection (t : TensorSig) (indices : MPIndices) : Except String MPPlan :=
  let idx := mpIndicesList indices
  if idx.length > t.rank then .error tooMuchMsg
  else
    let k := t.rank
    let kp := 2 * k - idx.length
    Except.ok
      { factors :=
          (List.range t.cov).map
            (fun i => if i ∈ idx then MPFactor.normalVec else MPFactor.projectorFac)
          ++ (List.range t.con).map
            (fun i => if i ∈ idx then MPFactor.normalForm else MPFactor.projectorFac)
        argsProj := List.range' (kp - t.con) t.con ++ List.range t.cov
        argsTensor := List.range k }

/-- Rank of the tensor returned by the final contraction: the
multiprojector's order plus the tensor's rank minus twice the number of
contracted index pairs. -/
def MPPlan.resultRank (t : TensorSig) (p : MPPlan) : ℕ :=
  (p.factors.map MPFactor.order).sum + t.rank - 2 * p.argsTensor.length

end MixedProjection

/-! ## `principal_curvatures`: naming and ordering

The source takes the eigenvalue list of the shape operator's matrix in
the given chart (external eigen-solver, in whatever order that solver
returns) and wraps entry `i` as a scalar field named
`"k_{}".format(next(counter))` where `counter = self.irange()`. -/

namespace PrincipalCurv

/-- A scalar field as far as this claim is concerned: its name and the
eigenvalue expression it wraps. -/
structure NamedScalar where
  sfName : String
  sfValue : ℚ
deriving DecidableEq

/-- Modelled from the spec: `self.irange()`, the iterator of index names
of the submanifold, is defined outside the provided sources; the spec's
contract "curvatures named `k_0..k_{n-1}`" fixes it as `0, 1, ..., n-1`. -/
def irange (n : ℕ) : List ℕ := List.range n

/-- The name given to the `i`-th principal curvature. -/
def kName (i : ℕ) : String := "k_" ++ toString i

/-- Transcription of the tail of `principal_curvatures(chart)`: the
eigen-solver output `eig` is renamed in place, entry `i` becoming the
scalar field `k_i` (the loop pairs `range(self._dim)` with the `irange`
counter). -/
def principal_curvatures (n : ℕ) (eig : List ℚ) : List NamedScalar :=
  List.zipWith (fun i v => ⟨kName i, v⟩) (irange n) eig

end PrincipalCurv

/-! ## Filtered-module degree computations on the zero element

`degree` (filtered modules with basis) guards on an empty support;
`homogeneous_degree` and `maximal_degree` (filtered algebras with basis)
guard on `self.is_zero()`.  An element of a free module is zero exactly
when its support is empty, so both guards are the same predicate on the
model, which records an element by its support list. -/

namespace FilteredDeg

/-- Message raised by all three degree computations on the zero
element. -/
def zeroDegreeMsg : String := "the zero element does not have a well-defined degree"

/-- Message raised by `degree`/`homogeneous_degree` on an inhomogeneous
element. -/
def notHomogMsg : String := "element is not homogeneous"

/-- A module element, recorded by its support: the basis keys carrying a
nonzero coefficient, as returned by `self.support()`. -/
structure FElt where
  supp : List ℕ
deriving DecidableEq

/-- Transcription of `is_homogeneous()`: the first support key fixes the
degree and every later key is compared against it. -/
def is_homogeneous (dob : ℕ → ℤ) (supp : List ℕ) : Bool :=
  match supp with
  | [] => true
  | m :: rest => rest.all (fun m' => dob m' == dob m)

/-- Modelled from the spec: `leading_support()` of the element is defined
outside the provided sources; on a homogeneous element any support key
yields the same degree, so the maximal key stands in for it. -/
def leading_support (supp : List ℕ) : ℕ := supp.foldl Nat.max 0

/-- Transcription of `degree()` from `filtered_modules_with_basis.py`:
empty-support guard, homogeneity guard, then
`degree_on_basis(leading_support)`. -/
def degree (dob : ℕ → ℤ) (x : FElt) : Except String ℤ :=
  if x.supp = [] then .error zeroDegreeMsg
  else if is_homogeneous dob x.supp then .ok (dob (leading_support x.supp))
  else .error notHomogMsg

/-- Transcription of `homogeneous_degree()` from
`filtered_algebras_with_basis.py`: `is_zero` guard, homogeneity guard,
then `degree_on_basis(leading_support)`. -/
def homogeneous_degree (dob : ℕ → ℤ) (x : FElt) : Except String ℤ :=
  if x.supp = [] then .error zeroDegreeMsg
  else if is_homogeneous dob x.supp then .ok (dob (leading_support x.supp))
  else .error notHomogMsg

/-- Transcription of `maximal_degree()` from
`filtered_algebras_with_basis.py`: `is_zero` guard, then
`max(degree_on_basis(m) for m in self.support())`. -/
def maximal_degree (dob : ℕ → ℤ) (x : FElt) : Except String ℤ :=
  match x.supp with
  | [] => .error zeroDegreeMsg
  | m :: rest => .ok (rest.foldl (fun a m' => max a (dob m')) (dob m))

end FilteredDeg

/-! ## Foliated-mode normal: `n = sgn * lapse * gradt` and unit norm

In the foliated branch the source sets
`self._normal = self._sgn * self.lapse() * self.gradt()` with
`self._lapse = 1 / (self._sgn * self.ambient_metric()(self.gradt(),
self.gradt())).sqrt()`.  `Pt` is the ambient manifold's point set, `V` its
tangent vectors at a point; the symbolic square root is a collaborator
function `sqrtFn` whose defining property (its square gives back the
radicand, which a successful closed-form `sqrt` guarantees) enters only as
a hypothesis of the theorem. -/

namespace FoliatedNormal

/-- Geometric data of a foliated submanifold: signature sign, ambient
metric (as a bilinear form at each point), the gradient of the foliation
parameter, and the symbolic square-root collaborator. -/
structure GeomData (Pt V : Type) where
  /-- `self._sgn` -/
  sgn : ℚ
  /-- `self.ambient_metric()` evaluated on two vectors at a point -/
  gmet : Pt → V → V → ℚ
  /-- `self.gradt()` -/
  gradtVec : Pt → V
  /-- the symbolic `sqrt` of the scalar-field layer -/
  sqrtFn : ℚ → ℚ

/-- Transcription of `lapse()`:
`1 / (sgn * g(gradt, gradt)).sqrt()`, pointwise. -/
def lapse {Pt V : Type} (G : GeomData Pt V) (p : Pt) : ℚ :=
  1 / G.sqrtFn (G.sgn * G.gmet p (G.gradtVec p) (G.gradtVec p))

/-- Transcription of the foliated branch of `normal()`:
`sgn * lapse * gradt`, pointwise. -/
def normal {Pt V : Type} [SMul ℚ V] (G : GeomData Pt V) (p : Pt) : V :=
  (G.sgn * lapse G p) • G.gradtVec p

end FoliatedNormal

/-! ## The `mean_curvature` cache assignment

`shape_operator()` stores its result in `self._shape_operator`;
`mean_curvature()` (source line 1484) *also* assigns its scalar field to
`self._shape_operator` — the slot `self._mean_curvature`, initialised in
`__init__` and reset by `clear_cache`, is never written anywhere in the
source.  The state below carries the two `cached_method` caches and the
two instance slots, and the two accessors transcribe exactly which of
them each call writes. -/

namespace CurvatureCache

/-- The values the symbolic layer produces for the two curvature
quantities of a fixed embedding. -/
structure CurvGeom where
  shapeVal : ℚ
  meanVal : ℚ
deriving DecidableEq

/-- Cache state of a submanifold instance: the `@cached_method` caches of
`shape_operator` and `mean_curvature`, and the instance slots
`self._shape_operator` and `self._mean_curvature`. -/
structure CurvState where
  cmShape : Option ℚ
  cmMean : Option ℚ
  slotShape : Option ℚ
  slotMean : Option ℚ
deriving DecidableEq

/-- State of a freshly constructed (or just-cleared) instance. -/
def freshState : CurvState := ⟨none, none, none, none⟩

/-- Transcription of `shape_operator()`: on a cache miss it computes the
contraction and assigns `self._shape_operator`. -/
def shape_operator (G : CurvGeom) (s : CurvState) : ℚ × CurvState :=
  match s.cmShape with
  | some v => (v, s)
  | none =>
    (G.shapeVal, { s with cmShape := some G.shapeVal, slotShape := some G.shapeVal })

/-- Transcription of `mean_curvature()`: on a cache miss it computes the
mean-curvature scalar field and assigns it to `self._shape_operator`
(source line 1484; `self._mean_curvature` is never written). -/
def mean_curvature (G : CurvGeom) (s : CurvState) : ℚ × CurvState :=
  match s.cmMean with
  | some v => (v, s)
  | none =>
    (G.meanVal, { s with cmMean := some G.meanVal, slotShape := some G.meanVal })

end CurvatureCache

/-! ## Idempotence of cached accessors and `clear_cache`

Modelled from the spec: the `cached_method` decorator that implements the
per-accessor memoization is outside the provided sources; spec section 5
fixes its contract — first access computes and stores, repeated access
returns the identical cached object, `clear_cache` forgets the entry and
the next access builds a new Python object.  Object identity is modelled
by tagging each computed value with a fresh allocation number. -/

namespace LazyCacheModel

/-- A computed Python object: an allocation identity plus the
mathematical value it wraps. -/
structure CachedObj (α : Type) where
  objId : ℕ
  objVal : α
deriving DecidableEq

/-- Cache cell of one accessor: the next free allocation number and the
memoized object, if any. -/
structure LazyCache (α : Type) where
  nextId : ℕ
  entry : Option (CachedObj α)
deriving DecidableEq

/-- One call of a cached accessor whose recomputation (under the
unchanged embedding) yields `compute`: return the memoized object, or
allocate, store and return a fresh one. -/
def getCached {α : Type} (compute : α) (s : LazyCache α) : CachedObj α × LazyCache α :=
  match s.entry with
  | some o => (o, s)
  | none => (⟨s.nextId, compute⟩, ⟨s.nextId + 1, some ⟨s.nextId, compute⟩⟩)

/-- Transcription of the accessor's part of `clear_cache()`: the memoized
entry is dropped wholesale; allocation numbers keep growing. -/
def clear_cache {α : Type} (s : LazyCache α) : LazyCache α := ⟨s.nextId, none⟩

/-- A reachable cache state: any memoized object was allocated earlier
(its identity is below the allocation counter) and holds the value the
unchanged embedding computes. -/
def WellFormed {α : Type} (compute : α) (s : LazyCache α) : Prop :=
  ∀ o, s.entry = some o → o.objId < s.nextId ∧ o.objVal = compute

end LazyCacheModel

/-! ## Projection round trip: `project(ambient_metric()) ==
ambient_first_fundamental_form()`

Component-level embedding over a `d`-dimensional ambient chart: a (0,2)
tensor is a `d × d` matrix of (symbolic) scalars, a vector a `d`-tuple.
The source computes
`gamma = g - sgn * g.contract(normal) * g.contract(normal)`
(`ambient_first_fundamental_form`, line 798),
`projector = gamma.contract(0, g.inverse())` (line 1119), and `project`
contracts each covariant index of its argument with the projector
(lines 1173-1176); on the metric this gives
`project(g)_ab = P^c_a P^e_b g_ce`. -/

namespace ProjectionRoundTrip

open Matrix

/-- Ambient data at the point of interest: signature sign, metric
components, inverse-metric components and the components of the computed
unit normal. -/
structure AmbientGeom (d : ℕ) where
  sgn : ℚ
  g : Matrix (Fin d) (Fin d) ℚ
  ginv : Matrix (Fin d) (Fin d) ℚ
  nrm : Fin d → ℚ

/-- `g.contract(normal)`: the normal with its index lowered. -/
def gContractNormal {d : ℕ} (A : AmbientGeom d) : Fin d → ℚ := A.g *ᵥ A.nrm

/-- Transcription of `ambient_first_fundamental_form()`:
`g - sgn * g.contract(normal) * g.contract(normal)` (a tensor product of
two 1-forms). -/
def ambient_first_fundamental_form {d : ℕ} (A : AmbientGeom d) :
    Matrix (Fin d) (Fin d) ℚ :=
  A.g - A.sgn • vecMulVec (gContractNormal A) (gContractNormal A)

/-- Transcription of `projector()`:
`ambient_first_fundamental_form().contract(0, g.inverse())`, the (1,1)
tensor `P^a_c = gamma_bc ginv^ba`. -/
def projector {d : ℕ} (A : AmbientGeom d) : Matrix (Fin d) (Fin d) ℚ :=
  A.ginvᵀ * ambient_first_fundamental_form A

/-- Transcription of `project` on a (0,2) tensor: both covariant indices
contracted with the contravariant slot of the projector,
`project(T)_ab = P^c_a T_ce P^e_b`. -/
def project2 {d : ℕ} (A : AmbientGeom d) (T : Matrix (Fin d) (Fin d) ℚ) :
    Matrix (Fin d) (Fin d) ℚ :=
  (projector A)ᵀ * T * projector A

/-- Multiplying into a rank-one matrix acts on its left vector. -/
theorem mul_vecMulVec {d : ℕ} (M : Matrix (Fin d) (Fin d) ℚ) (u v : Fin d → ℚ) :
    M * vecMulVec u v = vecMulVec (M *ᵥ u) v := by
  ext i j
  simp [Matrix.mul_apply, vecMulVec_apply, Matrix.mulVec, dotProduct,
    Finset.sum_mul, mul_assoc]

/-- Multiplying a rank-one matrix into a matrix acts on its right
vector. -/
theorem vecMulVec_mul {d : ℕ} (u v : Fin d → ℚ) (M : Matrix (Fin d) (Fin d) ℚ) :
    vecMulVec u v * M = vecMulVec u (v ᵥ* M) := by
  ext i j
  simp [Matrix.mul_apply, vecMulVec_apply, Matrix.vecMul, dotProduct,
    Finset.mul_sum, mul_assoc]

/-- Transposing a rank-one matrix swaps its vectors. -/
theorem transpose_vecMulVec {d : ℕ} (u v : Fin d → ℚ) :
    (vecMulVec u v)ᵀ = vecMulVec v u := by
  ext i j
  simp [vecMulVec_apply, Matrix.transpose_apply, mul_comm]

/-- A row vector through a rank-one matrix. -/
theorem vecMul_vecMulVec {d : ℕ} (w u v : Fin d → ℚ) :
    w ᵥ* vecMulVec u v = (w ⬝ᵥ u) • v := by
  funext j
  simp [Matrix.vecMul, vecMulVec_apply, dotProduct, Finset.sum_mul, mul_assoc,
    smul_eq_mul]

/-- Scalar multiples pass into the left vector of a rank-one matrix. -/
theorem smul_vecMulVec {d : ℕ} (c : ℚ) (u v : Fin d → ℚ) :
    c • vecMulVec u v = vecMulVec (c • u) v := by
  ext i j
  simp [vecMulVec_apply, smul_eq_mul, mul_assoc]

/-- A rank-one matrix with zero right vector vanishes. -/
theorem vecMulVec_zero {d : ℕ} (u : Fin d → ℚ) :
    vecMulVec u (0 : Fin d → ℚ) = 0 := by
  ext i j
  simp [vecMulVec_apply]

end ProjectionRoundTrip

/-! ## The unfoliated `normal()`: breadth-first chart-graph traversal

Transcription of lines 714-748 of the source: starting from each not-yet
marked top chart, compute the normal there, then propagate it along the
three chart relationships (restriction to a subchart, continuation to a
superchart, change of coordinates), marking each chart when it is first
reached and queueing it, so no chart is ever handled twice.  `C` is the
type of charts; the three relations and the atlas/top-chart lists are the
collaborator data of the manifold object.  The definitions terminate by
the measure `2 * (unmarked charts) + queue length`, which is the
termination content of the claim. -/

namespace NormalBfs

/-- Chart-graph data of the manifold: the atlas, the top charts, and the
three edge kinds (`vp ∈ v._subcharts`, `vp ∈ v._supercharts`,
`(v, vp) ∈ coord_changes()`). -/
structure AtlasData (C : Type) where
  atlas : List C
  topCharts : List C
  subchart : C → C → Bool
  superchart : C → C → Bool
  coordChange : C → C → Bool

/-- Traversal state: the queue `f`, the `marked` set, and the list of
charts on which a normal component has been computed or propagated, in
order (each chart is appended exactly when it is marked). -/
structure BfsState (C : Type) where
  queue : List C
  marked : Finset C
  visitLog : List C

/-- One `if vp in ... and vp not in marked:` block of the source: queue
the chart, propagate the normal onto it (logged), and mark it. -/
def tryMark {C : Type} [DecidableEq C] (cond : Bool) (vp : C) (s : BfsState C) :
    BfsState C :=
  if cond ∧ vp ∉ s.marked then
    ⟨s.queue ++ [vp], insert vp s.marked, s.visitLog ++ [vp]⟩
  else s

/-- The three sequential neighbour cases (restriction, continuation,
coordinate change) for one candidate chart `vp` of the inner
`for vp in self.atlas():` loop. -/
def scanStep {C : Type} [DecidableEq C] (A : AtlasData C) (v : C) (s : BfsState C)
    (vp : C) : BfsState C :=
  tryMark (A.coordChange v vp) vp
    (tryMark (A.superchart vp v) vp
      (tryMark (A.subchart vp v) vp s))

/-- The inner `for vp in self.atlas():` loop for the dequeued chart
`v`. -/
def scanNeighbors {C : Type} [DecidableEq C] (A : AtlasData C) (v : C)
    (s : BfsState C) : BfsState C :=
  A.atlas.foldl (scanStep A v) s

/-- Number of atlas charts not yet marked. -/
def unmarkedCount {C : Type} [DecidableEq C] (A : AtlasData C) (s : BfsState C) : ℕ :=
  (A.atlas.toFinset \ s.marked).card

/-- Termination measure of the `while not f.empty():` loop. -/
def bfsMeasure {C : Type} [DecidableEq C] (A : AtlasData C) (s : BfsState C) : ℕ :=
  2 * unmarkedCount A s + s.queue.length

/-- Marking a neighbour never increases the termination measure: the
queue grows by one entry exactly when an unmarked atlas chart becomes
marked. -/
theorem bfsMeasure_tryMark {C : Type} [DecidableEq C] (A : AtlasData C)
    (cond : Bool) (vp : C) (s : BfsState C) (hvp : vp ∈ A.atlas) :
    bfsMeasure A (tryMark cond vp s) ≤ bfsMeasure A s := by
  unfold tryMark
  split
  · next h =>
    have hmem : vp ∈ A.atlas.toFinset \ s.marked := by
      simp only [Finset.mem_sdiff, List.mem_toFinset]
      exact ⟨hvp, h.2⟩
    have hcard : (A.atlas.toFinset \ insert vp s.marked).card
        = (A.atlas.toFinset \ s.marked).card - 1 := by
      rw [Finset.sdiff_insert, Finset.card_erase_of_mem hmem]
    have hpos : 0 < (A.atlas.toFinset \ s.marked).card :=
      Finset.card_pos.mpr ⟨vp, hmem⟩
    simp only [bfsMeasure, unmarkedCount, hcard, List.length_append,
      List.length_singleton]
    omega
  · exact le_refl _

/-- The three neighbour cases never increase the measure. -/
theorem bfsMeasure_scanStep {C : Type} [DecidableEq C] (A : AtlasData C) (v : C)
    (s : BfsState C) (vp : C) (hvp : vp ∈ A.atlas) :
    bfsMeasure A (scanStep A v s vp) ≤ bfsMeasure A s := by
  unfold scanStep
  calc bfsMeasure A (tryMark (A.coordChange v vp) vp
          (tryMark (A.superchart vp v) vp (tryMark (A.subchart vp v) vp s)))
      ≤ bfsMeasure A (tryMark (A.superchart vp v) vp
          (tryMark (A.subchart vp v) vp s)) := bfsMeasure_tryMark A _ vp _ hvp
    _ ≤ bfsMeasure A (tryMark (A.subchart vp v) vp s) :=
        bfsMeasure_tryMark A _ vp _ hvp
    _ ≤ bfsMeasure A s := bfsMeasure_tryMark A _ vp _ hvp

/-- Folding the neighbour scan over any sublist of the atlas never
increases the measure. -/
theorem bfsMeasure_foldl {C : Type} [DecidableEq C] (A : AtlasData C) (v : C) :
    ∀ (l : List C), (∀ c ∈ l, c ∈ A.atlas) → ∀ (s : BfsState C),
      bfsMeasure A (l.foldl (scanStep A v) s) ≤ bfsMeasure A s := by
  intro l
  induction l with
  | nil => intro _ s; exact le_refl _
  | cons c l ih =>
    intro hl s
    have hc : c ∈ A.atlas := hl c (List.mem_cons_self c l)
    have hl' : ∀ x ∈ l, x ∈ A.atlas := fun x hx => hl x (List.mem_cons_of_mem c hx)
    calc bfsMeasure A (l.foldl (scanStep A v) (scanStep A v s c))
        ≤ bfsMeasure A (scanStep A v s c) := ih hl' _
      _ ≤ bfsMeasure A s := bfsMeasure_scanStep A v s c hc

/-- The measure never increases across a full neighbour scan. -/
theorem bfsMeasure_scanNeighbors {C : Type} [DecidableEq C] (A : AtlasData C)
    (v : C) (s : BfsState C) :
    bfsMeasure A (scanNeighbors A v s) ≤ bfsMeasure A s :=
  bfsMeasure_foldl A v A.atlas (fun _ hc => hc) s

/-- The `while not f.empty():` loop of the unfoliated `normal()`:
dequeue a chart and scan the atlas for its unmarked neighbours.  The
definition terminates for every finite atlas by the measure
`2 * unmarked + queue length`. -/
def bfsLoop {C : Type} [DecidableEq C] (A : AtlasData C) : BfsState C → BfsState C
  | ⟨[], m, l⟩ => ⟨[], m, l⟩
  | ⟨v :: rest, m, l⟩ => bfsLoop A (scanNeighbors A v ⟨rest, m, l⟩)
termination_by s => bfsMeasure A s
decreasing_by
  calc bfsMeasure A (scanNeighbors A v ⟨rest, m, l⟩)
      ≤ bfsMeasure A ⟨rest, m, l⟩ := bfsMeasure_scanNeighbors A v _
    _ < bfsMeasure A ⟨v :: rest, m, l⟩ := by
        simp only [bfsMeasure, unmarkedCount, List.length_cons]
        omega

/-- One iteration of the outer `for v in self.top_charts():` loop: if the
top chart is unmarked, compute the normal on it (`calc_normal(v)`,
logged), mark it, and run the breadth-first loop from the queue `[v]`. -/
def calcStart {C : Type} [DecidableEq C] (A : AtlasData C) (s : BfsState C)
    (v : C) : BfsState C :=
  if v ∉ s.marked then
    bfsLoop A ⟨[v], insert v s.marked, s.visitLog ++ [v]⟩
  else s

/-- The whole chart-graph exploration of the unfoliated `normal()`: the
outer loop over the top charts starting from the empty marking. -/
def normal_traversal {C : Type} [DecidableEq C] (A : AtlasData C) : BfsState C :=
  A.topCharts.foldl (calcStart A) ⟨[], ∅, []⟩

/-- Invariant of the traversal: no chart is logged twice, and logged
charts are marked. -/
def GoodState {C : Type} (s : BfsState C) : Prop :=
  s.visitLog.Nodup ∧ ∀ c ∈ s.visitLog, c ∈ s.marked

end NormalBfs

namespace FoliationOps

/-- C5: each of `difft()`, `gradt()`, `lapse()` and `shift()` raises the
foliation-precondition `ValueError` — whose message reads "A foliation is
needed to perform this calculation" — exactly when no foliation was
declared (`dim_foliation == 0`), as its first action; with a foliation
declared, all four return a value and none raises that error. -/
theorem foliation_precondition_iff {V : Type} (ctx : FoliationCtx V) :
    (ctx.dimFoliation = 0 →
      difft ctx = .error foliationMsg ∧ gradt ctx = .error foliationMsg ∧
      lapse ctx = .error foliationMsg ∧ shift ctx = .error foliationMsg)
    ∧ (ctx.dimFoliation ≠ 0 →
      (∃ v, difft ctx = .ok v) ∧ (∃ v, gradt ctx = .ok v) ∧
      (∃ v, lapse ctx = .ok v) ∧ (∃ v, shift ctx = .ok v)) := by
  constructor
  · intro h
    refine ⟨?_, ?_, ?_, ?_⟩ <;> simp [difft, gradt, lapse, shift, h]
  · intro h
    have hd : difft ctx = .ok ctx.tInvDiffVal := by simp [difft, h]
    have hg : gradt ctx = .ok (ctx.metricInvContract ctx.tInvDiffVal) := by
      simp [gradt, h, hd]
    have hl : lapse ctx
        = .ok (ctx.reciprocalNorm (ctx.metricInvContract ctx.tInvDiffVal)) := by
      simp [lapse, h, hg]
    have hn : normal ctx
        = .ok (ctx.scaleNormal
            (ctx.reciprocalNorm (ctx.metricInvContract ctx.tInvDiffVal))
            (ctx.metricInvContract ctx.tInvDiffVal)) := by
      simp [normal, hl, hg]
    have hs : shift ctx
        = .ok (ctx.shiftCombine ctx.adaptedFrameVec
            (ctx.reciprocalNorm (ctx.metricInvContract ctx.tInvDiffVal))
            (ctx.scaleNormal
              (ctx.reciprocalNorm (ctx.metricInvContract ctx.tInvDiffVal))
              (ctx.metricInvContract ctx.tInvDiffVal))) := by
      simp [shift, h, hl, hn]
    exact ⟨⟨_, hd⟩, ⟨_, hg⟩, ⟨_, hl⟩, ⟨_, hs⟩⟩

end FoliationOps

namespace FilteredDeg

/-- C9: `degree`, `homogeneous_degree` and `maximal_degree` all raise the
error "the zero element does not have a well-defined degree" on the zero
element (empty support), and on any nonzero homogeneous element all three
return a degree without raising. -/
theorem degree_zero_element_guard (dob : ℕ → ℤ) (x : FElt) :
    (x.supp = [] →
      degree dob x = .error zeroDegreeMsg ∧
      homogeneous_degree dob x = .error zeroDegreeMsg ∧
      maximal_degree dob x = .error zeroDegreeMsg)
    ∧ (x.supp ≠ [] → is_homogeneous dob x.supp = true →
      (∃ d, degree dob x = .ok d) ∧ (∃ d, homogeneous_degree dob x = .ok d) ∧
      (∃ d, maximal_degree dob x = .ok d)) := by
  constructor
  · intro h
    refine ⟨?_, ?_, ?_⟩ <;> simp [degree, homogeneous_degree, maximal_degree, h]
  · intro h hhom
    refine ⟨⟨dob (leading_support x.supp), ?_⟩,
      ⟨dob (leading_support x.supp), ?_⟩, ?_⟩
    · simp [degree, h, hhom]
    · simp [homogeneous_degree, h, hhom]
    · cases hx : x.supp with
      | nil => exact absurd hx h
      | cons m rest =>
        exact ⟨rest.foldl (fun a m' => max a (dob m')) (dob m),
          by simp [maximal_degree, hx]⟩

end FilteredDeg

namespace PrincipalCurv

/-- Renaming a zipped eigenvalue list leaves the names indexed by the
first list and the wrapped values equal to the second. -/
theorem zipWith_name_value (l1 : List ℕ) :
    ∀ (l2 : List ℚ), l1.length = l2.length →
      (List.zipWith (fun i v => (⟨kName i, v⟩ : NamedScalar)) l1 l2).map
          NamedScalar.sfName = l1.map kName
      ∧ (List.zipWith (fun i v => (⟨kName i, v⟩ : NamedScalar)) l1 l2).map
          NamedScalar.sfValue = l2 := by
  induction l1 with
  | nil =>
    intro l2 h
    cases l2 with
    | nil => simp
    | cons b l2' => simp at h
  | cons a l ih =>
    intro l2 h
    cases l2 with
    | nil => simp at h
    | cons b l2' =>
      have hrec := ih l2' (by simpa using h)
      constructor
      · simpa using hrec.1
      · simpa using hrec.2

/-- C8: for a submanifold of dimension `n`, `principal_curvatures(chart)`
returns the solver's eigenvalues in the solver's order, wrapped as scalar
fields named `k_0, k_1, ..., k_(n-1)` in that order. -/
theorem principal_curvatures_named (n : ℕ) (eig : List ℚ) (h : eig.length = n) :
    (principal_curvatures n eig).map NamedScalar.sfName = (List.range n).map kName
    ∧ (principal_curvatures n eig).map NamedScalar.sfValue = eig := by
  have := zipWith_name_value (irange n) eig (by simp [irange, h])
  simpa [principal_curvatures, irange] using this

/-- Witness: the two eigenvalues `3, 5` of a 2-dimensional submanifold
become the scalar fields `k_0 = 3` and `k_1 = 5`. -/
theorem principal_curvatures_named_witness :
    ([(3 : ℚ), 5].length = 2)
    ∧ ((principal_curvatures 2 [3, 5]).map NamedScalar.sfName
        = (List.range 2).map kName
      ∧ (principal_curvatures 2 [3, 5]).map NamedScalar.sfValue = [3, 5]) :=
  ⟨rfl, principal_curvatures_named 2 [3, 5] rfl⟩

end PrincipalCurv

namespace MixedProjection

/-- C10: an integer argument `k ≤ rank` to `mixed_projection` is read as
`range(k)`, so the call builds exactly the contraction job of the explicit
index list `[0, 1, ..., k-1]`. -/
theorem mixed_projection_count_refines (t : TensorSig) (k : ℕ) (h : k ≤ t.rank) :
    mixed_projection t (.count k)
      = mixed_projection t (.explicitList (List.range k)) := rfl

/-- Witness: on a (0,2) tensor, the integer argument 1 and the list `[0]`
produce the same contraction job. -/
theorem mixed_projection_count_refines_witness :
    (1 ≤ TensorSig.rank ⟨0, 2⟩)
    ∧ mixed_projection ⟨0, 2⟩ (.count 1)
        = mixed_projection ⟨0, 2⟩ (.explicitList (List.range 1)) :=
  ⟨by decide, mixed_projection_count_refines ⟨0, 2⟩ 1 (by decide)⟩

/-- C6 counterexample: the guard's `ValueError` message is
"Too much contractions", not "too many contractions"; and with the
explicit list `[0, 2]` on a (0,2) tensor — two entries, equal to the
rank — no error is raised yet the result is a rank-1 tensor, not a
scalar field. -/
theorem mixed_projection_message_counterexample :
    mixed_projection ⟨0, 2⟩ (.explicitList [0, 1, 2]) = .error tooMuchMsg
    ∧ tooMuchMsg ≠ tooManyMsg
    ∧ (mixed_projection ⟨0, 2⟩ (.explicitList [0, 2])).map
        (fun p => p.resultRank ⟨0, 2⟩) = .ok 1 := by
  refine ⟨rfl, ?_, rfl⟩
  decide

/-- C6 (amended): `mixed_projection(tensor, indices)` raises
`ValueError("Too much contractions")` exactly when `len(indices)` exceeds
the tensor rank; and with the integer argument `k = rank` (the first
`rank` positions) it raises nothing and the contraction job yields a
rank-0 result, a scalar field. -/
theorem mixed_projection_guard_iff (t : TensorSig) (indices : MPIndices) :
    (mixed_projection t indices = .error tooMuchMsg
      ↔ t.rank < (mpIndicesList indices).length)
    ∧ (mixed_projection t (.count t.rank)).map
        (fun p => p.resultRank t) = .ok 0 := by
  constructor
  · by_cases hc : t.rank < (mpIndicesList indices).length
    · constructor
      · intro _
        exact hc
      · intro _
        simp only [mixed_projection]
        rw [if_pos hc]
    · constructor
      · intro habs
        rw [show mixed_projection t indices = mixed_projection t indices from rfl]
          at habs
        simp only [mixed_projection] at habs
        rw [if_neg hc] at habs
        exact Except.noConfusion habs
      · intro habs
        exact absurd habs hc
  · have hlen : ¬ (List.range t.rank).length > t.rank := by simp
    have h1 : (List.range t.cov).map
        (fun i => if i ∈ List.range t.rank then MPFactor.normalVec
          else MPFactor.projectorFac)
        = (List.range t.cov).map (fun _ => MPFactor.normalVec) := by
      apply List.map_congr_left
      intro i hi
      rw [List.mem_range] at hi
      rw [if_pos]
      rw [List.mem_range]
      have : t.cov ≤ t.rank := by simp [TensorSig.rank]
      omega
    have h2 : (List.range t.con).map
        (fun i => if i ∈ List.range t.rank then MPFactor.normalForm
          else MPFactor.projectorFac)
        = (List.range t.con).map (fun _ => MPFactor.normalForm) := by
      apply List.map_congr_left
      intro i hi
      rw [List.mem_range] at hi
      rw [if_pos]
      rw [List.mem_range]
      have : t.con ≤ t.rank := by simp [TensorSig.rank]
      omega
    simp only [mixed_projection, mpIndicesList, hlen, if_neg hlen, Except.map,
      MPPlan.resultRank, h1, h2]
    simp [MPFactor.order, List.sum_replicate, TensorSig.rank, Nat.sub_self,
      mul_comm]
    omega

end MixedProjection

namespace FoliatedNormal

/-- C1: with a declared foliation, `normal()` is the closed form
`sgn * lapse() * gradt()`, and since `lapse` is the reciprocal norm of
`gradt` the normal is unit with the signature sign:
`ambient_metric()(normal(), normal()) = sgn`.  The hypotheses record that
`sgn` is a sign, that the metric is quadratic in scalar rescaling, and
that the symbolic square root succeeded on the nonzero radicand. -/
theorem normal_unit {Pt V : Type} [SMul ℚ V] (G : GeomData Pt V) (p : Pt)
    (hsgn : G.sgn = 1 ∨ G.sgn = -1)
    (hquad : ∀ (c : ℚ) (v : V), G.gmet p (c • v) (c • v) = c ^ 2 * G.gmet p v v)
    (hsqrt : G.sqrtFn (G.sgn * G.gmet p (G.gradtVec p) (G.gradtVec p)) ^ 2
        = G.sgn * G.gmet p (G.gradtVec p) (G.gradtVec p))
    (hnz : G.sgn * G.gmet p (G.gradtVec p) (G.gradtVec p) ≠ 0) :
    normal G p = (G.sgn * lapse G p) • G.gradtVec p
    ∧ G.gmet p (normal G p) (normal G p) = G.sgn := by
  refine ⟨rfl, ?_⟩
  have hs : G.sqrtFn (G.sgn * G.gmet p (G.gradtVec p) (G.gradtVec p)) ≠ 0 := by
    intro h0
    apply hnz
    rw [← hsqrt, h0]
    ring
  rw [normal, hquad, lapse]
  set Gq := G.gmet p (G.gradtVec p) (G.gradtVec p) with hGqdef
  set s := G.sqrtFn (G.sgn * Gq) with hsdef
  have hsgn2 : G.sgn ^ 2 = 1 := by
    rcases hsgn with h | h <;> rw [h] <;> norm_num
  have hGqne : Gq ≠ 0 := by
    intro hq
    exact hnz (by rw [hq, mul_zero])
  have expand : (G.sgn * (1 / s)) ^ 2 * Gq = G.sgn ^ 2 * Gq / s ^ 2 := by
    field_simp
  rw [expand, hsqrt, hsgn2, one_mul]
  rcases hsgn with h | h <;> rw [h]
  · rw [one_mul, div_self hGqne]
  · rw [neg_one_mul, div_neg, div_self hGqne]

/-- The one-dimensional Euclidean check case: metric `v * w`, gradient 1,
trivial square root. -/
def unitGeom : GeomData Unit ℚ :=
  ⟨1, fun _ v w => v * w, fun _ => 1, fun x => x⟩

/-- Witness: on `unitGeom` the foliated normal is the closed form and has
unit norm. -/
theorem normal_unit_witness :
    normal unitGeom () = (unitGeom.sgn * lapse unitGeom ()) • unitGeom.gradtVec ()
    ∧ unitGeom.gmet () (normal unitGeom ()) (normal unitGeom ())
        = unitGeom.sgn :=
  normal_unit unitGeom () (Or.inl rfl)
    (fun c v => by simp [unitGeom, smul_eq_mul]; ring)
    (by norm_num [unitGeom])
    (by norm_num [unitGeom])

end FoliatedNormal

namespace CurvatureCache

/-- C2 (the code deviates): evaluating the transcription at the failing
input — shape operator computed first (symbolic value 5), then
`mean_curvature()` (symbolic value 7) — shows `mean_curvature()`
replacing the already-computed `self._shape_operator` entry with the
mean-curvature scalar while `self._mean_curvature` stays `None`. -/
theorem mean_curvature_overwrites_shape_slot :
    ((shape_operator ⟨5, 7⟩ freshState).2.slotShape = some 5)
    ∧ ((mean_curvature ⟨5, 7⟩ (shape_operator ⟨5, 7⟩ freshState).2).2.slotShape
        = some 7)
    ∧ ((mean_curvature ⟨5, 7⟩ (shape_operator ⟨5, 7⟩ freshState).2).2.slotShape
        ≠ (shape_operator ⟨5, 7⟩ freshState).2.slotShape)
    ∧ ((mean_curvature ⟨5, 7⟩ (shape_operator ⟨5, 7⟩ freshState).2).2.slotMean
        = none) := by
  refine ⟨rfl, rfl, ?_, rfl⟩
  simp [shape_operator, mean_curvature, freshState]

end CurvatureCache

namespace LazyCacheModel

/-- C3: on a reachable cache state, a second call of a cached accessor
returns the identical object and leaves the state untouched, and after
`clear_cache` the next call returns an object with a different identity
but the same mathematical value (the embedding being unchanged). -/
theorem cached_accessor_idempotent {α : Type} (compute : α) (s : LazyCache α)
    (hwf : WellFormed compute s) :
    getCached compute (getCached compute s).2 = getCached compute s
    ∧ (getCached compute (clear_cache (getCached compute s).2)).1.objId
        ≠ (getCached compute s).1.objId
    ∧ (getCached compute (clear_cache (getCached compute s).2)).1.objVal
        = (getCached compute s).1.objVal := by
  rcases hent : s.entry with _ | o
  · refine ⟨?_, ?_, ?_⟩ <;> simp [getCached, clear_cache, hent]
  · obtain ⟨hid, hval⟩ := hwf o hent
    refine ⟨?_, ?_, ?_⟩ <;> simp [getCached, clear_cache, hent]
    · omega
    · exact hval.symm

/-- Witness: a fresh empty cache computing the value 42. -/
theorem cached_accessor_idempotent_witness :
    WellFormed (42 : ℕ) (⟨0, none⟩ : LazyCache ℕ)
    ∧ (getCached 42 (getCached (42 : ℕ) (⟨0, none⟩ : LazyCache ℕ)).2
          = getCached 42 (⟨0, none⟩ : LazyCache ℕ)
      ∧ (getCached 42 (clear_cache (getCached (42 : ℕ)
            (⟨0, none⟩ : LazyCache ℕ)).2)).1.objId
          ≠ (getCached 42 (⟨0, none⟩ : LazyCache ℕ)).1.objId
      ∧ (getCached 42 (clear_cache (getCached (42 : ℕ)
            (⟨0, none⟩ : LazyCache ℕ)).2)).1.objVal
          = (getCached 42 (⟨0, none⟩ : LazyCache ℕ)).1.objVal) := by
  refine ⟨?_, ?_⟩
  · intro o h
    exact nomatch h
  · exact cached_accessor_idempotent 42 (⟨0, none⟩ : LazyCache ℕ)
      (fun _ h => nomatch h)

end LazyCacheModel

namespace ProjectionRoundTrip

open Matrix

/-- C4: with the unit normal (`g(n,n) = sgn`) of an embedding, contracting
every index of the ambient metric with the orthogonal projector
reproduces the ambient first fundamental form
`g - sgn * (g.n) ⊗ (g.n)`: `project(ambient_metric()) ==
ambient_first_fundamental_form()`. -/
theorem project_metric_roundtrip {d : ℕ} (A : AmbientGeom d)
    (hg : A.gᵀ = A.g)
    (hginv : A.ginvᵀ = A.ginv)
    (hinv : A.ginv * A.g = 1)
    (hsgn : A.sgn * A.sgn = 1)
    (hunit : A.nrm ⬝ᵥ gContractNormal A = A.sgn) :
    project2 A A.g = ambient_first_fundamental_form A := by
  set u := gContractNormal A with hu
  have hginvu : A.ginv *ᵥ u = A.nrm := by
    rw [hu, gContractNormal, Matrix.mulVec_mulVec, hinv, Matrix.one_mulVec]
  have hP : projector A = 1 - A.sgn • vecMulVec A.nrm u := by
    rw [projector, hginv, ambient_first_fundamental_form, ← hu, Matrix.mul_sub,
      hinv, Matrix.mul_smul, mul_vecMulVec, hginvu]
  have hgu : A.g *ᵥ A.nrm = u := by
    rw [hu, gContractNormal]
  have hgP : A.g * projector A = ambient_first_fundamental_form A := by
    rw [hP, Matrix.mul_sub, Matrix.mul_one, Matrix.mul_smul, mul_vecMulVec, hgu,
      ambient_first_fundamental_form, ← hu]
  have hrowg : A.nrm ᵥ* A.g = u := by
    rw [← hg, Matrix.vecMul_transpose, hgu]
  have hrow : A.nrm ᵥ* ambient_first_fundamental_form A = 0 := by
    rw [ambient_first_fundamental_form, ← hu, Matrix.vecMul_sub, hrowg,
      smul_vecMulVec, vecMul_vecMulVec, dotProduct_smul, hunit]
    rw [smul_eq_mul, hsgn, one_smul, sub_self]
  have hPt : (projector A)ᵀ = 1 - A.sgn • vecMulVec u A.nrm := by
    rw [hP, Matrix.transpose_sub, Matrix.transpose_one, Matrix.transpose_smul,
      transpose_vecMulVec]
  rw [project2, Matrix.mul_assoc, hgP, hPt, Matrix.sub_mul, Matrix.one_mul,
    Matrix.smul_mul, vecMulVec_mul, hrow, vecMulVec_zero, smul_zero, sub_zero]

/-- The 1-dimensional Euclidean check case: identity metric, unit
normal. -/
def euclidGeom : AmbientGeom 1 := ⟨1, 1, 1, fun _ => 1⟩

/-- Witness: the projection round trip on `euclidGeom`. -/
theorem project_metric_roundtrip_witness :
    project2 euclidGeom euclidGeom.g = ambient_first_fundamental_form euclidGeom :=
  project_metric_roundtrip euclidGeom Matrix.transpose_one Matrix.transpose_one
    (by rw [show euclidGeom.ginv = 1 from rfl, show euclidGeom.g = 1 from rfl,
      Matrix.mul_one])
    (by norm_num [euclidGeom])
    (by simp [euclidGeom, gContractNormal, Matrix.one_mulVec, dotProduct])

end ProjectionRoundTrip

namespace NormalBfs

/-- Marking a neighbour only grows the marked set. -/
theorem tryMark_marked_mono {C : Type} [DecidableEq C] (cond : Bool) (vp : C)
    (s : BfsState C) : s.marked ⊆ (tryMark cond vp s).marked := by
  unfold tryMark
  split
  · exact Finset.subset_insert _ _
  · exact Finset.Subset.refl _

/-- Marking a neighbour preserves the traversal invariant. -/
theorem tryMark_good {C : Type} [DecidableEq C] (cond : Bool) (vp : C)
    (s : BfsState C) (h : GoodState s) : GoodState (tryMark cond vp s) := by
  unfold tryMark
  split
  · next hcond =>
    obtain ⟨hnd, hmem⟩ := h
    constructor
    · have hvp : vp ∉ s.visitLog := fun hin => hcond.2 (hmem vp hin)
      simp [List.nodup_append, hnd, hvp]
    · intro c hc
      rcases List.mem_append.mp hc with hc | hc
      · exact Finset.mem_insert_of_mem (hmem c hc)
      · rw [List.mem_singleton] at hc
        subst hc
        exact Finset.mem_insert_self _ _
  · exact h

/-- The three neighbour cases only grow the marked set. -/
theorem scanStep_marked_mono {C : Type} [DecidableEq C] (A : AtlasData C) (v : C)
    (s : BfsState C) (vp : C) : s.marked ⊆ (scanStep A v s vp).marked := by
  unfold scanStep
  exact Finset.Subset.trans (tryMark_marked_mono (A.subchart vp v) vp s)
    (Finset.Subset.trans
      (tryMark_marked_mono (A.superchart vp v) vp
        (tryMark (A.subchart vp v) vp s))
      (tryMark_marked_mono (A.coordChange v vp) vp
        (tryMark (A.superchart vp v) vp (tryMark (A.subchart vp v) vp s))))

/-- The three neighbour cases preserve the invariant. -/
theorem scanStep_good {C : Type} [DecidableEq C] (A : AtlasData C) (v : C)
    (s : BfsState C) (vp : C) (h : GoodState s) : GoodState (scanStep A v s vp) :=
  tryMark_good _ _ _ (tryMark_good _ _ _ (tryMark_good _ _ _ h))

/-- The inner atlas loop only grows the marked set. -/
theorem foldl_scan_marked_mono {C : Type} [DecidableEq C] (A : AtlasData C)
    (v : C) : ∀ (l : List C) (s : BfsState C),
      s.marked ⊆ (l.foldl (scanStep A v) s).marked := by
  intro l
  induction l with
  | nil => intro s; exact Finset.Subset.refl _
  | cons c l ih =>
    intro s
    exact Finset.Subset.trans (scanStep_marked_mono A v s c) (ih _)

/-- The inner atlas loop preserves the invariant. -/
theorem foldl_scan_good {C : Type} [DecidableEq C] (A : AtlasData C) (v : C) :
    ∀ (l : List C) (s : BfsState C),
      GoodState s → GoodState (l.foldl (scanStep A v) s) := by
  intro l
  induction l with
  | nil => intro s h; exact h
  | cons c l ih =>
    intro s h
    exact ih _ (scanStep_good A v s c h)

/-- The breadth-first loop only grows the marked set. -/
theorem bfsLoop_marked_mono {C : Type} [DecidableEq C] (A : AtlasData C)
    (s : BfsState C) : s.marked ⊆ (bfsLoop A s).marked := by
  induction s using bfsLoop.induct (A := A) with
  | case1 m l =>
    rw [bfsLoop]
  | case2 v rest m l ih =>
    rw [bfsLoop]
    exact Finset.Subset.trans (foldl_scan_marked_mono A v A.atlas ⟨rest, m, l⟩) ih

/-- The breadth-first loop preserves the invariant. -/
theorem bfsLoop_good {C : Type} [DecidableEq C] (A : AtlasData C) :
    ∀ (s : BfsState C), GoodState s → GoodState (bfsLoop A s) := by
  intro s
  induction s using bfsLoop.induct (A := A) with
  | case1 m l =>
    intro hgood
    rw [bfsLoop]
    exact hgood
  | case2 v rest m l ih =>
    intro hgood
    rw [bfsLoop]
    exact ih (foldl_scan_good A v A.atlas ⟨rest, m, l⟩ hgood)

/-- Each outer-loop step only grows the marked set. -/
theorem calcStart_marked_mono {C : Type} [DecidableEq C] (A : AtlasData C)
    (s : BfsState C) (v : C) : s.marked ⊆ (calcStart A s v).marked := by
  unfold calcStart
  split
  · exact Finset.Subset.trans (Finset.subset_insert v s.marked)
      (bfsLoop_marked_mono A ⟨[v], insert v s.marked, s.visitLog ++ [v]⟩)
  · exact Finset.Subset.refl _

/-- After its outer-loop step, a top chart is marked. -/
theorem calcStart_covers {C : Type} [DecidableEq C] (A : AtlasData C)
    (s : BfsState C) (v : C) : v ∈ (calcStart A s v).marked := by
  unfold calcStart
  split
  · next h =>
    exact bfsLoop_marked_mono A ⟨[v], insert v s.marked, s.visitLog ++ [v]⟩
      (Finset.mem_insert_self v s.marked)
  · next h => simpa using h

/-- Each outer-loop step preserves the invariant. -/
theorem calcStart_good {C : Type} [DecidableEq C] (A : AtlasData C)
    (s : BfsState C) (v : C) (h : GoodState s) : GoodState (calcStart A s v) := by
  unfold calcStart
  split
  · next hv =>
    apply bfsLoop_good A ⟨[v], insert v s.marked, s.visitLog ++ [v]⟩
    obtain ⟨hnd, hmem⟩ := h
    constructor
    · have hvlog : v ∉ s.visitLog := fun hin => hv (hmem v hin)
      simp [List.nodup_append, hnd, hvlog]
    · intro c hc
      rcases List.mem_append.mp hc with hc | hc
      · exact Finset.mem_insert_of_mem (hmem c hc)
      · rw [List.mem_singleton] at hc
        subst hc
        exact Finset.mem_insert_self _ _
  · exact h

/-- The outer loop only grows the marked set. -/
theorem foldl_calc_marked_mono {C : Type} [DecidableEq C] (A : AtlasData C) :
    ∀ (l : List C) (s : BfsState C),
      s.marked ⊆ (l.foldl (calcStart A) s).marked := by
  intro l
  induction l with
  | nil => intro s; exact Finset.Subset.refl _
  | cons c l ih =>
    intro s
    exact Finset.Subset.trans (calcStart_marked_mono A s c) (ih _)

/-- Every chart of the processed list ends up marked. -/
theorem foldl_calc_covers {C : Type} [DecidableEq C] (A : AtlasData C) :
    ∀ (l : List C) (s : BfsState C) (v : C), v ∈ l →
      v ∈ (l.foldl (calcStart A) s).marked := by
  intro l
  induction l with
  | nil => intro s v hv; exact absurd hv (List.not_mem_nil v)
  | cons c l ih =>
    intro s v hv
    rcases List.mem_cons.mp hv with hv | hv
    · subst hv
      exact foldl_calc_marked_mono A l _ (calcStart_covers A s v)
    · exact ih _ v hv

/-- The outer loop preserves the invariant. -/
theorem foldl_calc_good {C : Type} [DecidableEq C] (A : AtlasData C) :
    ∀ (l : List C) (s : BfsState C),
      GoodState s → GoodState (l.foldl (calcStart A) s) := by
  intro l
  induction l with
  | nil => intro s h; exact h
  | cons c l ih =>
    intro s h
    exact ih _ (calcStart_good A s c h)

/-- C7: the breadth-first chart-graph traversal of the unfoliated
`normal()` terminates on every finite atlas (the traversal is a total
function, defined by the decreasing measure `2 * unmarked + queue`),
handles each chart at most once (its visit log never repeats a chart),
and, being restarted from every still-unmarked top chart, marks every
top-level chart even in a disconnected atlas. -/
theorem normal_bfs_once_and_covers {C : Type} [DecidableEq C] (A : AtlasData C) :
    (normal_traversal A).visitLog.Nodup
    ∧ ∀ v ∈ A.topCharts, v ∈ (normal_traversal A).marked := by
  have hgood : GoodState (normal_traversal A) :=
    foldl_calc_good A A.topCharts ⟨[], ∅, []⟩ ⟨List.nodup_nil, by simp⟩
  exact ⟨hgood.1, fun v hv => foldl_calc_covers A A.topCharts ⟨[], ∅, []⟩ v hv⟩

end NormalBfs
